import Mathlib

/- Shallow embedding of the image-to-PDF pipeline from src/main.py,
src/rename_pdfs.py and src/reajuste_nombre.py.

Python strings are modelled as `List Char`, directories as lists of
filenames, Python exceptions as `Except` values, and `re.sub` with the
two concrete patterns of the sources as left-to-right scanning functions.
`while` loops whose termination is not structural are given an explicit
fuel argument; theorems below show the chosen fuel is sufficient and the
result is insensitive to extra fuel.  Rational numbers stand for the
Python floats of the geometry stage, making the arithmetic exact. -/

/-- The whitespace characters removed by Python `str.strip` (ASCII range). -/
def isPySpace (c : Char) : Bool :=
  c == ' ' || c == '\t' || c == '\n' || c == '\r' || c == '\x0b' || c == '\x0c'

/-- Python `str.strip()`: drop leading and trailing whitespace. -/
def pyStrip (l : List Char) : List Char :=
  ((l.dropWhile isPySpace).reverse.dropWhile isPySpace).reverse

/-- Python `str.lower()` (ASCII model). -/
def lowerStr (l : List Char) : List Char := l.map Char.toLower

/-- Index of the last dot of a filename, if any. -/
def lastDotIdx (p : List Char) : Option Nat :=
  match p.reverse.findIdx? (fun c => c == '.') with
  | none => none
  | some r => some (p.length - 1 - r)

/-- Python `os.path.splitext` for plain filenames (no directory
separators): split at the last dot, unless every character before it is
itself a dot (so ".bashrc" has no extension). -/
def splitext (p : List Char) : List Char × List Char :=
  match lastDotIdx p with
  | none => (p, [])
  | some d => if (p.take d).any (fun c => c != '.') then (p.take d, p.drop d) else (p, [])

/-- `file.lower().endswith(".pdf")` from main.py line 143 and
rename_pdfs.py line 30. -/
def endsWithPdf (n : List Char) : Bool := List.isSuffixOf ".pdf".data (lowerStr n)

/- == Basename Pattern Normalizer: get_modified_basename ==
main.py lines 10-17 and rename_pdfs.py lines 4-11: re.sub with pattern
"-X(\d)_waifu2x_noise3_scale4x" followed by .strip().  The pattern is the
two literal characters "-X", one digit, then a 23-character literal tail;
re.sub replaces each non-overlapping occurrence, scanning left to right. -/

/-- The literal tail "_waifu2x_noise3_scale4x" of the marker pattern. -/
def markerTail : List Char := "_waifu2x_noise3_scale4x".data

/-- Try to match the marker pattern at the head of the list.  On success
return the captured digit and the remainder after the 26 matched
characters. -/
def tryMarker : List Char → Option (Char × List Char)
  | '-' :: 'X' :: d :: rest =>
    if d.isDigit = true ∧ rest.take 23 = markerTail then some (d, rest.drop 23) else none
  | _ => none

/-- Replacement template " (\1 COPIAS)" of main.py line 16. -/
def replParen (d : Char) : List Char := ' ' :: '(' :: d :: " COPIAS)".data

/-- Replacement template " \1 COPIAS" of rename_pdfs.py line 10. -/
def replPlain (d : Char) : List Char := ' ' :: d :: " COPIAS".data

/-- Left-to-right scan of `re.sub`: at each position try the marker
pattern; on a match emit the replacement and continue after the match,
otherwise keep the character.  The fuel argument only makes the recursion
structural; fuel `l.length` is always enough because a match consumes 26
characters. -/
def subMarkerF (repl : Char → List Char) : Nat → List Char → List Char
  | _, [] => []
  | 0, l => l
  | fuel + 1, c :: cs =>
    match tryMarker (c :: cs) with
    | some dr => repl dr.1 ++ subMarkerF repl fuel dr.2
    | none => c :: subMarkerF repl fuel cs

/-- Whether the marker pattern occurs anywhere in the string. -/
def markerOccursB (l : List Char) : Bool := l.tails.any fun t => (tryMarker t).isSome

/-- get_modified_basename of main.py lines 10-17 (parenthesized variant):
substitute the marker, then strip surrounding whitespace. -/
def get_modified_basename_main (s : List Char) : List Char :=
  pyStrip (subMarkerF replParen s.length s)

/-- get_modified_basename of rename_pdfs.py lines 4-11 (unparenthesized
variant). -/
def get_modified_basename_rp (s : List Char) : List Char :=
  pyStrip (subMarkerF replPlain s.length s)

/- == Second-pass normalizer: reajuste_nombre.py ==
Pattern r"(\d+ COPIAS)(\.[^.]+)?$" with replacement r"(\1)\2".  Because of
the end anchor, a match always extends to the end of the string, so after
one replacement the scan is finished.  The greedy "\d+" cannot give up
characters (the following character must be a space, never a digit), so a
position matches iff the digit run from it is followed by " COPIAS" and
then either the end of the string or one final dot-extension. -/

/-- The literal " COPIAS" that must follow the digits. -/
def copiasLit : List Char := " COPIAS".data

/-- Check the optional "(\.[^.]+)?$" part against the remainder `rest`:
either nothing is left, or a single extension (a dot followed by at least
one character and no further dot) ends the string. -/
def extCheck (g1 rest : List Char) : Option (List Char × List Char) :=
  match rest with
  | [] => some (g1, [])
  | '.' :: t => if t ≠ [] ∧ '.' ∉ t then some (g1, '.' :: t) else none
  | _ => none

/-- Try to match r"(\d+ COPIAS)(\.[^.]+)?$" at the head of `l`.  On
success return group 1 and group 2 (empty when absent). -/
def tryCopias (l : List Char) : Option (List Char × List Char) :=
  if l.takeWhile Char.isDigit = [] then none
  else if (l.dropWhile Char.isDigit).take 7 = copiasLit then
    extCheck (l.takeWhile Char.isDigit ++ copiasLit) ((l.dropWhile Char.isDigit).drop 7)
  else none

/-- `pattern.sub(r"(\1)\2", filename)`: scan left to right; the first
matching position is rewritten to "(" ++ group1 ++ ")" ++ group2 and,
since every match reaches the end of the string, the scan stops there. -/
def subCopias : List Char → List Char
  | [] => []
  | c :: cs =>
    match tryCopias (c :: cs) with
    | some g => '(' :: (g.1 ++ ')' :: g.2)
    | none => c :: subCopias cs

/-- `pattern.search(filename)` succeeded: some position matches. -/
def hasCopiasMatch (l : List Char) : Bool := l.tails.any fun t => (tryCopias t).isSome

/-- rename_files of reajuste_nombre.py lines 4-25, as a transformation of
the folder listing: every filename where the pattern matches is rewritten
with `subCopias`, the others are kept. -/
def rename_files (files : List (List Char)) : List (List Char) :=
  files.map fun n => if hasCopiasMatch n = true then subCopias n else n

/-- Whether `pat` occurs as a contiguous substring of `l`. -/
def occursB (pat l : List Char) : Bool := l.tails.any fun t => pat.isPrefixOf t

/- == Unique Naming Allocator: get_unique_filename ==
main.py lines 62-71 and rename_pdfs.py lines 13-22.  `os.path.exists` is
modelled as membership in the folder listing, and Python `str(counter)`
as decimal notation `natToDecimal`. -/

/-- Decimal digits of `n`, most significant first; fuel-indexed version
of the usual division-remainder recursion (`fuel = n + 1` suffices). -/
def natToDecimalAux : Nat → Nat → List Char
  | 0, _ => []
  | fuel + 1, n =>
    if n < 10 then [Char.ofNat (48 + n)]
    else natToDecimalAux fuel (n / 10) ++ [Char.ofNat (48 + n % 10)]

/-- Python `str(n)` for a natural number. -/
def natToDecimal (n : Nat) : List Char := natToDecimalAux (n + 1) n

/-- Left inverse of `natToDecimal`, used to prove it injective. -/
def decodeDecimal (l : List Char) : Nat := l.foldl (fun a c => a * 10 + (c.toNat - 48)) 0

/-- The sequence of names probed by get_unique_filename: first
`base + ext`, then `base (k)ext` for k = 1, 2, ... -/
def cand (base ext : List Char) : Nat → List Char
  | 0 => base ++ ext
  | k + 1 => base ++ (" (".data ++ (natToDecimal (k + 1) ++ (")".data ++ ext)))

/-- The probing loop of get_unique_filename: test candidate `k`; while it
exists in the folder move to candidate `k + 1`.  Fuel makes the recursion
structural; `folder.length + 1` probes always find a free name because
the candidates are pairwise distinct. -/
def guf_go (folder : List (List Char)) (base ext : List Char) : Nat → Nat → List Char
  | k, 0 => cand base ext k
  | k, fuel + 1 =>
    if cand base ext k ∈ folder then guf_go folder base ext (k + 1) fuel
    else cand base ext k

/-- get_unique_filename of main.py lines 62-71 / rename_pdfs.py 13-22. -/
def get_unique_filename (folder : List (List Char)) (base ext : List Char) : List Char :=
  guf_go folder base ext 0 (folder.length + 1)

/- == Standalone rename utility: rename_pdfs (rename_pdfs.py 24-38) ==
`os.listdir` is taken once at the start; `os.rename` removes the old name
from the folder state and adds the new one; get_unique_filename probes
the live state. -/

/-- Iterate the listing snapshot while threading the live folder state. -/
def rename_pdfs_go : List (List Char) → List (List Char) → List (List Char)
  | [], st => st
  | f :: fs, st =>
    if endsWithPdf f = true then
      if get_modified_basename_rp (splitext f).1 ≠ (splitext f).1 then
        rename_pdfs_go fs
          ((st.erase f) ++
            [get_unique_filename st (get_modified_basename_rp (splitext f).1) (splitext f).2])
      else rename_pdfs_go fs st
    else rename_pdfs_go fs st

/-- rename_pdfs of rename_pdfs.py lines 24-38 as a folder transformation. -/
def rename_pdfs (folder : List (List Char)) : List (List Char) :=
  rename_pdfs_go folder folder

/- == Page Geometry Correction: main.py lines 108-146 ==
Dimensions are exact rationals; a page contributes its mediabox size, the
output records the blank-page size and the applied transformation. -/

/-- cm_to_points of main.py line 108. -/
def cm_to_points (cm : ℚ) : ℚ := cm * 72 / 2.54

def target_content_width : ℚ := cm_to_points 6.3

def target_content_height : ℚ := cm_to_points 8.8

def final_width : ℚ := cm_to_points 6.7

def final_height : ℚ := cm_to_points 9.2

def margin : ℚ := cm_to_points 0.2

/-- A page's mediabox size in points. -/
structure PageBox where
  width : ℚ
  height : ℚ

/-- One output page of process_pdf: the blank page size and the
scale-then-translate transformation merged onto it. -/
structure OutPage where
  width : ℚ
  height : ℚ
  scale_x : ℚ
  scale_y : ℚ
  shift_x : ℚ
  shift_y : ℚ

/-- The per-page body of the loop in process_pdf (main.py 122-134). -/
def transformPage (p : PageBox) : OutPage :=
  ⟨final_width, final_height,
    target_content_width / p.width, target_content_height / p.height,
    margin, margin⟩

/-- A document on disk: its filename, whether PdfReader fails on it, and
its pages. -/
structure PdfDoc where
  name : List Char
  malformed : Bool
  pages : List PageBox

/-- Python exceptions distinguished by the claims. -/
inductive PyErr where
  | pdfReadError
  | imageError
  | saveError

/-- process_pdf of main.py lines 118-138: PdfReader raises on a malformed
document (nothing catches it); otherwise every page is transformed. -/
def process_pdf (d : PdfDoc) : Except PyErr (List OutPage) :=
  if d.malformed = true then Except.error PyErr.pdfReadError
  else Except.ok (d.pages.map transformPage)

/-- correct_pdfs of main.py lines 140-146: files whose lowered name does
not end in ".pdf" are skipped; process_pdf errors are not caught. -/
def correct_pdfs : List PdfDoc → Except PyErr (List (List Char × List OutPage))
  | [] => Except.ok []
  | d :: ds =>
    if endsWithPdf d.name = true then
      match process_pdf d with
      | Except.error e => Except.error e
      | Except.ok pages =>
        match correct_pdfs ds with
        | Except.error e => Except.error e
        | Except.ok rest => Except.ok ((d.name, pages) :: rest)
    else correct_pdfs ds

/- == Image stages: process_images and convert_images_to_pdf ==
Each source file carries abstract outcomes of the fallible operations:
`pilOk` (PIL open/convert/save during normalization), `cvReadOk`
(cv2.imread returns a valid image), `pdfSaveOk` (the PIL save to PDF in
the synthesis stage). -/

structure SrcImage where
  name : List Char
  pilOk : Bool
  cvReadOk : Bool
  pdfSaveOk : Bool

/-- The fallible PIL decode-reencode of a single file; raises (returns an
error) when the image is corrupt or the codec fails. -/
def pil_reencode (f : SrcImage) (out : List Char) : Except PyErr (List Char) :=
  if f.pilOk = true then Except.ok out else Except.error PyErr.imageError

/-- convert_webp_to_jpg of main.py lines 22-32: the try/except catches
every per-file error, so it always returns (the output name on success,
nothing on failure). -/
def convert_webp_to_jpg (f : SrcImage) (out : List Char) : Except PyErr (Option (List Char)) :=
  match pil_reencode f out with
  | Except.ok n => Except.ok (some n)
  | Except.error _ => Except.ok none

/-- The per-file body of process_images (main.py lines 43-57): WEBP files
are converted, JPG/JPEG/PNG files are re-encoded inside a try/except,
anything else is silently skipped. -/
def normalizeImage (f : SrcImage) : Except PyErr (Option (List Char)) :=
  if lowerStr (splitext f.name).2 = ".webp".data then
    convert_webp_to_jpg f ((splitext f.name).1 ++ ".jpg".data)
  else if lowerStr (splitext f.name).2 = ".jpg".data ∨
      lowerStr (splitext f.name).2 = ".jpeg".data ∨
      lowerStr (splitext f.name).2 = ".png".data then
    match pil_reencode f f.name with
    | Except.ok n => Except.ok (some n)
    | Except.error _ => Except.ok none
  else Except.ok none

/-- process_images of main.py lines 34-57, returning the list of written
output names. -/
def process_images : List SrcImage → Except PyErr (List (List Char))
  | [] => Except.ok []
  | f :: fs =>
    match normalizeImage f with
    | Except.error e => Except.error e
    | Except.ok o =>
      match process_images fs with
      | Except.error e => Except.error e
      | Except.ok rest => Except.ok (o.toList ++ rest)

/-- `file.lower().endswith((".png", ".jpg", ".jpeg"))` of main.py 87. -/
def supportedRaster (n : List Char) : Bool :=
  List.isSuffixOf ".png".data (lowerStr n) || List.isSuffixOf ".jpg".data (lowerStr n) ||
    List.isSuffixOf ".jpeg".data (lowerStr n)

/-- convert_images_to_pdf of main.py lines 73-103, threading the output
folder state.  An unreadable image (cv2.imread returning None) is printed
and skipped; the PIL save to PDF is not inside any try/except, so its
failure propagates. -/
def convert_images_to_pdf : List SrcImage → List (List Char) → Except PyErr (List (List Char))
  | [], out => Except.ok out
  | f :: fs, out =>
    if supportedRaster f.name = true then
      if f.cvReadOk = false then convert_images_to_pdf fs out
      else
        if f.pdfSaveOk = true then
          convert_images_to_pdf fs
            (out ++ [get_unique_filename out
              (get_modified_basename_main (splitext f.name).1) ".pdf".data])
        else Except.error PyErr.saveError
    else convert_images_to_pdf fs out

/- ===================== Helper lemmas ===================== -/

lemma dropWhile_idem (p : Char → Bool) (l : List Char) :
    (l.dropWhile p).dropWhile p = l.dropWhile p := by
  induction l with
  | nil => rfl
  | cons c cs ih =>
    cases hp : p c
    · simp [List.dropWhile_cons, hp]
    · simpa [List.dropWhile_cons, hp] using ih

lemma head_not_of_dropWhile_fix {p : Char → Bool} {c : Char} {rest : List Char}
    (h : (c :: rest).dropWhile p = c :: rest) : p c = false := by
  cases hp : p c
  · rfl
  · exfalso
    have h2 : rest.dropWhile p = c :: rest := by
      simpa [List.dropWhile_cons, hp] using h
    have hle : (rest.dropWhile p).length ≤ rest.length :=
      (List.dropWhile_suffix p).length_le
    rw [h2] at hle
    simp at hle

lemma pyStrip_decompose (l : List Char) :
    ∃ w, l.dropWhile isPySpace = pyStrip l ++ w := by
  refine ⟨((l.dropWhile isPySpace).reverse.takeWhile isPySpace).reverse, ?_⟩
  have h := congrArg List.reverse
    (List.takeWhile_append_dropWhile (p := isPySpace) (l := (l.dropWhile isPySpace).reverse))
  rw [List.reverse_append, List.reverse_reverse] at h
  exact h.symm

lemma pyStrip_noLead (l : List Char) :
    (pyStrip l).dropWhile isPySpace = pyStrip l := by
  obtain ⟨w, hw⟩ := pyStrip_decompose l
  cases hr : pyStrip l with
  | nil => rfl
  | cons c r' =>
    have hM := dropWhile_idem isPySpace l
    rw [hw, hr, List.cons_append] at hM
    have hc : isPySpace c = false := head_not_of_dropWhile_fix hM
    simp [List.dropWhile_cons, hc]

lemma pyStrip_noTrail (l : List Char) :
    (pyStrip l).reverse.dropWhile isPySpace = (pyStrip l).reverse := by
  unfold pyStrip
  rw [List.reverse_reverse]
  exact dropWhile_idem _ _

lemma subMarkerF_eq_self (repl : Char → List Char) :
    ∀ fuel l, (∀ t, t <:+ l → tryMarker t = none) → subMarkerF repl fuel l = l := by
  intro fuel
  induction fuel with
  | zero => intro l _; cases l <;> rfl
  | succ fuel ih =>
    intro l h
    cases l with
    | nil => rfl
    | cons c cs =>
      have h0 : tryMarker (c :: cs) = none := h _ (List.suffix_refl _)
      have ih' := ih cs (fun t ht => h t (ht.trans (List.suffix_cons c cs)))
      simp [subMarkerF, h0, ih']

lemma markerOccursB_eq_false_iff (l : List Char) :
    markerOccursB l = false ↔ ∀ t, t <:+ l → tryMarker t = none := by
  unfold markerOccursB
  rw [List.any_eq_false]
  constructor
  · intro h t ht
    have ht' := h t (by rwa [List.mem_tails])
    cases htm : tryMarker t with
    | none => rfl
    | some v => rw [htm] at ht'; simp at ht'
  · intro h t ht
    rw [List.mem_tails] at ht
    simp [h t ht]

/- ===================== Claim theorems ===================== -/

/-- C3: the Basename Pattern Normalizer maps
"BT14-069-X1_waifu2x_noise3_scale4x" to "BT14-069 (1 COPIAS)" in the
parenthesized variant (main.py) and to "BT14-069 1 COPIAS" in the
unparenthesized variant (rename_pdfs.py), exactly. -/
theorem claim_C3 :
    get_modified_basename_main "BT14-069-X1_waifu2x_noise3_scale4x".data =
      "BT14-069 (1 COPIAS)".data ∧
    get_modified_basename_rp "BT14-069-X1_waifu2x_noise3_scale4x".data =
      "BT14-069 1 COPIAS".data :=
  ⟨rfl, rfl⟩

/-- C2 counterexample: the input " a" contains no occurrence of the
marker pattern, yet neither variant of get_modified_basename returns it
unchanged: the unconditional strip removes the leading space. -/
theorem claim_C2_counterexample :
    markerOccursB " a".data = false ∧
    get_modified_basename_main " a".data ≠ " a".data ∧
    get_modified_basename_rp " a".data ≠ " a".data := by
  refine ⟨by decide, by decide, by decide⟩

/-- C2 (amended): on every input without an occurrence of the marker
pattern, both variants of get_modified_basename return the input with its
surrounding whitespace stripped; in particular they are the identity on
such inputs when the input additionally has no leading or trailing
whitespace. -/
theorem claim_C2_amended (s : List Char) (h : markerOccursB s = false) :
    get_modified_basename_main s = pyStrip s ∧
    get_modified_basename_rp s = pyStrip s ∧
    (pyStrip s = s →
      get_modified_basename_main s = s ∧ get_modified_basename_rp s = s) := by
  have hfree := (markerOccursB_eq_false_iff s).1 h
  have h1 : subMarkerF replParen s.length s = s := subMarkerF_eq_self _ s.length s hfree
  have h2 : subMarkerF replPlain s.length s = s := subMarkerF_eq_self _ s.length s hfree
  refine ⟨?_, ?_, ?_⟩
  · unfold get_modified_basename_main; rw [h1]
  · unfold get_modified_basename_rp; rw [h2]
  · intro hs
    constructor
    · unfold get_modified_basename_main; rw [h1, hs]
    · unfold get_modified_basename_rp; rw [h2, hs]

/-- Witness for C2 (amended) at the marker-free input "BT14-069". -/
theorem claim_C2_witness :
    markerOccursB "BT14-069".data = false ∧
    get_modified_basename_main "BT14-069".data = "BT14-069".data ∧
    get_modified_basename_rp "BT14-069".data = "BT14-069".data := by
  refine ⟨by decide, ?_, ?_⟩
  · exact ((claim_C2_amended "BT14-069".data (by decide)).2.2 (by decide)).1
  · exact ((claim_C2_amended "BT14-069".data (by decide)).2.2 (by decide)).2

/-- C9: for every input string, the output of both variants of
get_modified_basename has no leading and no trailing whitespace (the
substituted string is unconditionally stripped). -/
theorem claim_C9 (s : List Char) :
    (get_modified_basename_main s).dropWhile isPySpace = get_modified_basename_main s ∧
    (get_modified_basename_main s).reverse.dropWhile isPySpace =
      (get_modified_basename_main s).reverse ∧
    (get_modified_basename_rp s).dropWhile isPySpace = get_modified_basename_rp s ∧
    (get_modified_basename_rp s).reverse.dropWhile isPySpace =
      (get_modified_basename_rp s).reverse :=
  ⟨pyStrip_noLead _, pyStrip_noTrail _, pyStrip_noLead _, pyStrip_noTrail _⟩

/-- C7: on a folder containing exactly
"BT14-069-X2_waifu2x_noise3_scale4x.pdf", the standalone rename utility
produces "BT14-069 2 COPIAS.pdf", and a second run on the resulting
folder changes nothing. -/
theorem claim_C7 :
    rename_pdfs ["BT14-069-X2_waifu2x_noise3_scale4x.pdf".data] =
      ["BT14-069 2 COPIAS.pdf".data] ∧
    rename_pdfs ["BT14-069 2 COPIAS.pdf".data] = ["BT14-069 2 COPIAS.pdf".data] :=
  ⟨rfl, rfl⟩

lemma decodeDecimal_append_digit (xs : List Char) (c : Char) :
    decodeDecimal (xs ++ [c]) = decodeDecimal xs * 10 + (c.toNat - 48) := by
  unfold decodeDecimal
  rw [List.foldl_append]
  rfl

lemma toNat_digitChar {n : Nat} (h : n < 10) : (Char.ofNat (48 + n)).toNat - 48 = n := by
  interval_cases n <;> decide

lemma decode_natToDecimalAux :
    ∀ fuel n, n < fuel → decodeDecimal (natToDecimalAux fuel n) = n := by
  intro fuel
  induction fuel with
  | zero => intro n h; omega
  | succ fuel ih =>
    intro n h
    by_cases h10 : n < 10
    · simp only [natToDecimalAux, if_pos h10]
      have hd : decodeDecimal [Char.ofNat (48 + n)] = (Char.ofNat (48 + n)).toNat - 48 := by
        unfold decodeDecimal; simp
      rw [hd, toNat_digitChar h10]
    · have hdiv : n / 10 < n := Nat.div_lt_self (by omega) (by norm_num)
      have hf : n / 10 < fuel := by omega
      simp only [natToDecimalAux, if_neg h10]
      rw [decodeDecimal_append_digit, ih _ hf,
        toNat_digitChar (Nat.mod_lt n (by norm_num))]
      have := Nat.div_add_mod n 10
      omega

lemma natToDecimal_inj : Function.Injective natToDecimal := by
  intro a b h
  have ha := decode_natToDecimalAux (a + 1) a (by omega)
  have hb := decode_natToDecimalAux (b + 1) b (by omega)
  have h' := congrArg decodeDecimal h
  simp only [natToDecimal] at h'
  omega

lemma natToDecimal_ne_nil (n : Nat) : natToDecimal n ≠ [] := by
  unfold natToDecimal natToDecimalAux
  by_cases h10 : n < 10 <;> simp [h10]

lemma length_natToDecimal_pos (n : Nat) : 0 < (natToDecimal n).length :=
  List.length_pos.2 (natToDecimal_ne_nil n)

lemma cand_inj (base ext : List Char) : Function.Injective (cand base ext) := by
  have hsp : (" (".data).length = 2 := rfl
  have hcp : ((")".data)).length = 1 := rfl
  intro i j h
  match i, j with
  | 0, 0 => rfl
  | 0, j + 1 =>
    exfalso
    have hlen := congrArg List.length h
    simp only [cand, List.length_append, hsp, hcp] at hlen
    have := length_natToDecimal_pos (j + 1)
    omega
  | i + 1, 0 =>
    exfalso
    have hlen := congrArg List.length h
    simp only [cand, List.length_append, hsp, hcp] at hlen
    have := length_natToDecimal_pos (i + 1)
    omega
  | i + 1, j + 1 =>
    simp only [cand] at h
    have h2 := List.append_cancel_left h
    have h3 := List.append_cancel_left h2
    have h4 := List.append_cancel_right h3
    have := natToDecimal_inj h4
    omega

lemma exists_cand_free (folder : List (List Char)) (base ext : List Char) :
    ∃ k, k ≤ folder.length ∧ cand base ext k ∉ folder := by
  by_contra hc
  push_neg at hc
  have hnd : ((List.range (folder.length + 1)).map (cand base ext)).Nodup :=
    (List.nodup_range _).map (cand_inj base ext)
  have hsub : ((List.range (folder.length + 1)).map (cand base ext)).toFinset ⊆
      folder.toFinset := by
    intro x hx
    rw [List.mem_toFinset] at hx ⊢
    obtain ⟨k, hk, rfl⟩ := List.mem_map.1 hx
    exact hc _ (Nat.lt_succ_iff.1 (List.mem_range.1 hk))
  have h1 : ((List.range (folder.length + 1)).map (cand base ext)).toFinset.card =
      folder.length + 1 := by
    rw [List.toFinset_card_of_nodup hnd]
    simp
  have h2 := Finset.card_le_card hsub
  have h3 := List.toFinset_card_le (l := folder)
  omega

lemma guf_go_min (folder : List (List Char)) (base ext : List Char) :
    ∀ fuel k, (∃ j, j ≤ fuel ∧ cand base ext (k + j) ∉ folder) →
      ∃ j, j ≤ fuel ∧ guf_go folder base ext k fuel = cand base ext (k + j) ∧
        cand base ext (k + j) ∉ folder ∧ ∀ i, i < j → cand base ext (k + i) ∈ folder := by
  intro fuel
  induction fuel with
  | zero =>
    rintro k ⟨j, hj, hfree⟩
    have hj0 : j = 0 := by omega
    subst hj0
    exact ⟨0, Nat.le_refl 0, rfl, hfree, by omega⟩
  | succ fuel ih =>
    rintro k ⟨j, hj, hfree⟩
    by_cases hmem : cand base ext k ∈ folder
    · have hjne : j ≠ 0 := by
        intro h0
        subst h0
        simp only [Nat.add_zero] at hfree
        exact hfree hmem
      obtain ⟨j', rfl⟩ : ∃ j', j = j' + 1 := ⟨j - 1, by omega⟩
      have hx : ∃ j2, j2 ≤ fuel ∧ cand base ext (k + 1 + j2) ∉ folder := by
        refine ⟨j', by omega, ?_⟩
        have he : k + 1 + j' = k + (j' + 1) := by omega
        rw [he]
        exact hfree
      obtain ⟨j0, hj0, heq, hfree0, hmin0⟩ := ih (k + 1) hx
      refine ⟨j0 + 1, by omega, ?_, ?_, ?_⟩
      · simp only [guf_go, if_pos hmem]
        rw [heq]
        congr 1
        omega
      · have he : k + (j0 + 1) = k + 1 + j0 := by omega
        rw [he]
        exact hfree0
      · intro i hi
        cases i with
        | zero => simpa using hmem
        | succ i' =>
          have he : k + (i' + 1) = k + 1 + i' := by omega
          rw [he]
          exact hmin0 i' (by omega)
    · refine ⟨0, by omega, ?_, by simpa using hmem, by omega⟩
      simp [guf_go, hmem]

/-- C1: for every folder state and every (base, ext), get_unique_filename
returns a name that is not present in the folder, and that name is the
first candidate of the probed sequence base+ext, base (1)ext, base (2)ext,
... that is absent (all earlier candidates are present).  The model is a
pure function of the folder listing, so it creates no file and is
deterministic given the folder contents. -/
theorem claim_C1 (folder : List (List Char)) (base ext : List Char) :
    get_unique_filename folder base ext ∉ folder ∧
    ∃ N, get_unique_filename folder base ext = cand base ext N ∧
      cand base ext N ∉ folder ∧ ∀ m, m < N → cand base ext m ∈ folder := by
  obtain ⟨k, hk, hfree⟩ := exists_cand_free folder base ext
  obtain ⟨j, hj, heq, hfree', hmin⟩ := guf_go_min folder base ext (folder.length + 1) 0
    ⟨k, by omega, by simpa using hfree⟩
  have heq' : get_unique_filename folder base ext = cand base ext j := by
    unfold get_unique_filename
    rw [heq]
    congr 1
    omega
  refine ⟨?_, j, heq', by simpa using hfree', fun m hm => by simpa using hmin m hm⟩
  rw [heq']
  simpa using hfree'

/-- C10: the probing loop of get_unique_filename terminates on every
finite folder — the chosen fuel folder.length + 1 suffices, and any extra
fuel yields the same result — and the returned name is base+ext when that
is free, or base (N)ext for the smallest N ≥ 1 whose candidate is absent
from the folder. -/
theorem claim_C10 (folder : List (List Char)) (base ext : List Char) (m : Nat) :
    guf_go folder base ext 0 (folder.length + 1 + m) = get_unique_filename folder base ext ∧
    ((cand base ext 0 ∉ folder ∧ get_unique_filename folder base ext = cand base ext 0) ∨
      (∃ N, 1 ≤ N ∧ cand base ext 0 ∈ folder ∧
        get_unique_filename folder base ext = cand base ext N ∧
        cand base ext N ∉ folder ∧ ∀ i, 1 ≤ i → i < N → cand base ext i ∈ folder)) := by
  obtain ⟨k, hk, hfree⟩ := exists_cand_free folder base ext
  obtain ⟨j1, hj1, heq1, hfree1, hmin1⟩ := guf_go_min folder base ext (folder.length + 1) 0
    ⟨k, by omega, by simpa using hfree⟩
  obtain ⟨j2, hj2, heq2, hfree2, hmin2⟩ := guf_go_min folder base ext (folder.length + 1 + m) 0
    ⟨k, by omega, by simpa using hfree⟩
  have hjj : j1 = j2 := by
    rcases Nat.lt_trichotomy j1 j2 with h | h | h
    · exact absurd (hmin2 j1 h) hfree1
    · exact h
    · exact absurd (hmin1 j2 h) hfree2
  have heq1' : get_unique_filename folder base ext = cand base ext j1 := by
    unfold get_unique_filename
    rw [heq1]
    congr 1
    omega
  constructor
  · rw [heq2, heq1', hjj]
    congr 1
    omega
  · by_cases h0 : cand base ext 0 ∈ folder
    · right
      have hj1pos : 1 ≤ j1 := by
        rcases Nat.eq_zero_or_pos j1 with hz | hp
        · subst hz
          exact absurd h0 (by simpa using hfree1)
        · exact hp
      refine ⟨j1, hj1pos, h0, heq1', by simpa using hfree1, ?_⟩
      intro i h1i hij
      simpa using hmin1 i hij
    · left
      have hj10 : j1 = 0 := by
        by_contra hh
        have hi := hmin1 0 (by omega)
        simp only [Nat.add_zero] at hi
        exact h0 hi
      exact ⟨h0, by rw [heq1', hj10]⟩

/-- C4: for every page of a readable document with positive mediabox
dimensions (W, H), process_pdf computes the scale factors exactly
(6.3*72/2.54)/W and (8.8*72/2.54)/H, and every output page has size
exactly (6.7*72/2.54, 9.2*72/2.54) points regardless of the input size. -/
theorem claim_C4 (d : PdfDoc) (hm : d.malformed = false) (p : PageBox)
    (hp : p ∈ d.pages) (hw : 0 < p.width) (hh : 0 < p.height) :
    process_pdf d = Except.ok (d.pages.map transformPage) ∧
    (transformPage p).scale_x = (6.3 * 72 / 2.54) / p.width ∧
    (transformPage p).scale_y = (8.8 * 72 / 2.54) / p.height ∧
    ∀ q ∈ d.pages.map transformPage,
      q.width = 6.7 * 72 / 2.54 ∧ q.height = 9.2 * 72 / 2.54 := by
  refine ⟨by simp [process_pdf, hm], ?_, ?_, ?_⟩
  · simp [transformPage, target_content_width, cm_to_points]
  · simp [transformPage, target_content_height, cm_to_points]
  · intro q hq
    obtain ⟨pp, hpp, rfl⟩ := List.mem_map.1 hq
    exact ⟨by simp [transformPage, final_width, cm_to_points],
      by simp [transformPage, final_height, cm_to_points]⟩

/-- Witness for C4 at a one-page document of size 72 x 144 points. -/
theorem claim_C4_witness :
    process_pdf ⟨"x.pdf".data, false, [⟨72, 144⟩]⟩ =
      Except.ok [transformPage ⟨72, 144⟩] ∧
    (transformPage (⟨72, 144⟩ : PageBox)).scale_x = (6.3 * 72 / 2.54) / 72 ∧
    (transformPage (⟨72, 144⟩ : PageBox)).scale_y = (8.8 * 72 / 2.54) / 144 := by
  have h := claim_C4 ⟨"x.pdf".data, false, [⟨72, 144⟩]⟩ rfl ⟨72, 144⟩
    (List.mem_singleton.2 rfl) (by norm_num) (by norm_num)
  exact ⟨h.1, h.2.1, h.2.2.1⟩

/-- C6: correct_pdfs propagates the error raised on any malformed file
whose (lowered) name ends in ".pdf", aborting the run; and its only
per-file recovery is the extension filter — when every ".pdf"-named file
is well-formed the stage succeeds, whatever the other files contain. -/
theorem claim_C6 :
    (∀ docs (d : PdfDoc), d ∈ docs → endsWithPdf d.name = true → d.malformed = true →
      ∃ e, correct_pdfs docs = Except.error e) ∧
    (∀ docs : List PdfDoc, (∀ d ∈ docs, endsWithPdf d.name = true → d.malformed = false) →
      ∃ o, correct_pdfs docs = Except.ok o) := by
  constructor
  · intro docs
    induction docs with
    | nil => intro d hd; simp at hd
    | cons a as ih =>
      intro d hd hpdf hmal
      rcases List.mem_cons.1 hd with rfl | hmem
      · exact ⟨PyErr.pdfReadError, by simp [correct_pdfs, hpdf, process_pdf, hmal]⟩
      · by_cases ha : endsWithPdf a.name = true
        · by_cases hm : a.malformed = true
          · exact ⟨PyErr.pdfReadError, by simp [correct_pdfs, ha, process_pdf, hm]⟩
          · obtain ⟨e, he⟩ := ih d hmem hpdf hmal
            refine ⟨e, ?_⟩
            have hok : process_pdf a = Except.ok (a.pages.map transformPage) := by
              simp [process_pdf, hm]
            simp only [correct_pdfs, if_pos ha, hok, he]
        · obtain ⟨e, he⟩ := ih d hmem hpdf hmal
          exact ⟨e, by simp [correct_pdfs, ha, he]⟩
  · intro docs h
    induction docs with
    | nil => exact ⟨[], rfl⟩
    | cons a as ih =>
      obtain ⟨o, ho⟩ := ih (fun d hd hp => h d (List.mem_cons_of_mem a hd) hp)
      by_cases ha : endsWithPdf a.name = true
      · have hm : a.malformed = false := h a (List.mem_cons_self a as) ha
        refine ⟨(a.name, a.pages.map transformPage) :: o, ?_⟩
        have hok : process_pdf a = Except.ok (a.pages.map transformPage) := by
          simp [process_pdf, hm]
        simp only [correct_pdfs, if_pos ha, hok, ho]
      · exact ⟨o, by simp [correct_pdfs, ha, ho]⟩

/-- Witness for C6: a folder with one malformed ".pdf" file makes
correct_pdfs raise, and a folder whose only malformed file is not a
".pdf" file succeeds. -/
theorem claim_C6_witness :
    (∃ e, correct_pdfs [⟨"bad.pdf".data, true, []⟩] = Except.error e) ∧
    (∃ o, correct_pdfs [⟨"blob.txt".data, true, []⟩, ⟨"ok.pdf".data, false, []⟩] =
      Except.ok o) := by
  refine ⟨claim_C6.1 _ ⟨"bad.pdf".data, true, []⟩ (List.mem_singleton.2 rfl)
    (by decide) rfl, claim_C6.2 _ ?_⟩
  decide

lemma normalizeImage_ok (f : SrcImage) : ∃ o, normalizeImage f = Except.ok o := by
  unfold normalizeImage convert_webp_to_jpg pil_reencode
  cases hp : f.pilOk <;>
    · by_cases h1 : lowerStr (splitext f.name).2 = ".webp".data
      · simp [h1, hp]
      · by_cases h2 : lowerStr (splitext f.name).2 = ".jpg".data ∨
            lowerStr (splitext f.name).2 = ".jpeg".data ∨
            lowerStr (splitext f.name).2 = ".png".data
        · simp [h1, h2, hp]
        · simp [h1, h2]

/-- C5 counterexample: a batch holding a single supported, readable image
whose PDF encode fails makes convert_images_to_pdf raise instead of
skipping the file — the save call of the synthesis stage is outside every
try/except. -/
theorem claim_C5_counterexample :
    convert_images_to_pdf [⟨"a.png".data, true, true, false⟩] [] =
      Except.error PyErr.saveError := rfl

/-- C5 (amended): per-file failures during the normalization stage
(process_images) are caught, logged and skipped, and the stage always
completes; in the synthesis stage (convert_images_to_pdf) an unreadable
image is skipped and the batch continues, but a codec encode failure
while saving is NOT caught — the stage completes whenever every
supported, readable file also saves successfully. -/
theorem claim_C5_amended :
    (∀ files : List SrcImage, ∃ outs, process_images files = Except.ok outs) ∧
    (∀ (files : List SrcImage) (st : List (List Char)),
      (∀ f ∈ files, supportedRaster f.name = true → f.cvReadOk = true →
        f.pdfSaveOk = true) →
      ∃ outs, convert_images_to_pdf files st = Except.ok outs) := by
  constructor
  · intro files
    induction files with
    | nil => exact ⟨[], rfl⟩
    | cons f fs ih =>
      obtain ⟨o, ho⟩ := normalizeImage_ok f
      obtain ⟨outs, houts⟩ := ih
      exact ⟨o.toList ++ outs, by simp [process_images, ho, houts]⟩
  · intro files
    induction files with
    | nil => intro st h; exact ⟨st, rfl⟩
    | cons f fs ih =>
      intro st h
      by_cases hs : supportedRaster f.name = true
      · by_cases hr : f.cvReadOk = false
        · obtain ⟨outs, ho⟩ := ih st (fun g hg => h g (List.mem_cons_of_mem f hg))
          exact ⟨outs, by simp [convert_images_to_pdf, hs, hr, ho]⟩
        · have hr' : f.cvReadOk = true := by
            revert hr; cases f.cvReadOk <;> simp
          have hsave : f.pdfSaveOk = true := h f (List.mem_cons_self f fs) hs hr'
          obtain ⟨outs, ho⟩ := ih
            (st ++ [get_unique_filename st
              (get_modified_basename_main (splitext f.name).1) ".pdf".data])
            (fun g hg => h g (List.mem_cons_of_mem f hg))
          exact ⟨outs, by simp [convert_images_to_pdf, hs, hr', hsave, ho]⟩
      · obtain ⟨outs, ho⟩ := ih st (fun g hg => h g (List.mem_cons_of_mem f hg))
        exact ⟨outs, by simp [convert_images_to_pdf, hs, ho]⟩

/-- Witness for C5 (amended): a normalization batch with a corrupt image
and an unsupported file completes, and a synthesis batch containing an
unreadable image and a good image completes. -/
theorem claim_C5_witness :
    (∃ outs, process_images
      [⟨"bad.png".data, false, true, true⟩, ⟨"x.txt".data, true, true, true⟩] =
        Except.ok outs) ∧
    (∃ outs, convert_images_to_pdf
      [⟨"dud.png".data, true, false, true⟩, ⟨"good.jpg".data, true, true, true⟩] [] =
        Except.ok outs) :=
  ⟨claim_C5_amended.1 _, claim_C5_amended.2 _ [] (by decide)⟩

lemma suffix_append_cases {t X Y : List Char} (h : t <:+ X ++ Y) :
    t <:+ Y ∨ ∃ u, u <:+ X ∧ u ≠ [] ∧ t = u ++ Y := by
  induction X with
  | nil => left; simpa using h
  | cons x X ih =>
    rw [List.cons_append] at h
    rcases List.suffix_cons_iff.1 h with rfl | h'
    · right
      exact ⟨x :: X, List.suffix_refl _, by simp, by simp⟩
    · rcases ih h' with hY | ⟨u, hu, hune, rfl⟩
      · left; exact hY
      · right; exact ⟨u, hu.trans (List.suffix_cons x X), hune, rfl⟩

lemma takeWhile_append_of_all {p : Char → Bool} :
    ∀ u z : List Char, (∀ c ∈ u, p c = true) →
      (u ++ z).takeWhile p = u ++ z.takeWhile p := by
  intro u
  induction u with
  | nil => intro z _; rfl
  | cons c u ih =>
    intro z h
    have hc : p c = true := h c (List.mem_cons_self c u)
    simp only [List.cons_append, List.takeWhile_cons, hc, if_true]
    rw [ih z (fun x hx => h x (List.mem_cons_of_mem c hx))]

lemma dropWhile_append_of_all {p : Char → Bool} :
    ∀ u z : List Char, (∀ c ∈ u, p c = true) →
      (u ++ z).dropWhile p = z.dropWhile p := by
  intro u
  induction u with
  | nil => intro z _; rfl
  | cons c u ih =>
    intro z h
    have hc : p c = true := h c (List.mem_cons_self c u)
    simp only [List.cons_append, List.dropWhile_cons, hc, if_true]
    exact ih z (fun x hx => h x (List.mem_cons_of_mem c hx))

lemma takeWhile_append_of_break {p : Char → Bool} :
    ∀ u z : List Char, ¬ (∀ c ∈ u, p c = true) →
      (u ++ z).takeWhile p = u.takeWhile p ∧
        (u ++ z).dropWhile p = u.dropWhile p ++ z := by
  intro u
  induction u with
  | nil => intro z h; exact absurd (by simp) h
  | cons c u ih =>
    intro z h
    cases hc : p c
    · simp [List.takeWhile_cons, List.dropWhile_cons, hc]
    · have h' : ¬ (∀ x ∈ u, p x = true) := by
        intro hall
        exact h (fun x hx => by
          rcases List.mem_cons.1 hx with rfl | hm
          · exact hc
          · exact hall x hm)
      obtain ⟨h1, h2⟩ := ih z h'
      simp [List.takeWhile_cons, List.dropWhile_cons, hc, h1, h2]

lemma isPrefixOf_self_append (xs t : List Char) : xs.isPrefixOf (xs ++ t) = true := by
  induction xs with
  | nil => simp [List.isPrefixOf]
  | cons x xs ih => simp [List.isPrefixOf, ih]

lemma occursB_of_decomp (pat : List Char) :
    ∀ u v l : List Char, l = u ++ (pat ++ v) → occursB pat l = true := by
  intro u
  induction u with
  | nil =>
    intro v l h
    subst h
    unfold occursB
    rw [List.any_eq_true]
    refine ⟨pat ++ v, ?_, isPrefixOf_self_append pat v⟩
    rw [List.mem_tails]
    simp
  | cons c u ih =>
    intro v l h
    subst h
    unfold occursB
    rw [List.cons_append, List.tails_cons, List.any_cons]
    have hu := ih v (u ++ (pat ++ v)) rfl
    unfold occursB at hu
    rw [hu, Bool.or_true]

lemma tryCopias_nil : tryCopias [] = none := rfl

lemma tryCopias_none_of_head_not_digit {c : Char} {cs : List Char}
    (h : c.isDigit = false) : tryCopias (c :: cs) = none := by
  unfold tryCopias
  simp [List.takeWhile_cons, h]

lemma tryCopias_some_decomp {l : List Char} {g : List Char × List Char}
    (h : tryCopias l = some g) :
    ∃ ds r, l = ds ++ (copiasLit ++ r) ∧ ds ≠ [] := by
  unfold tryCopias at h
  by_cases h1 : l.takeWhile Char.isDigit = []
  · simp [h1] at h
  · by_cases h2 : (l.dropWhile Char.isDigit).take 7 = copiasLit
    · refine ⟨l.takeWhile Char.isDigit, (l.dropWhile Char.isDigit).drop 7, ?_, h1⟩
      conv_lhs => rw [← List.takeWhile_append_dropWhile (p := Char.isDigit) (l := l)]
      congr 1
      rw [← h2]
      exact (List.take_append_drop 7 _).symm
    · simp [h1, h2] at h

lemma subCopias_eq_self :
    ∀ l : List Char, (∀ t, t <:+ l → tryCopias t = none) → subCopias l = l := by
  intro l
  induction l with
  | nil => intro _; rfl
  | cons c cs ih =>
    intro h
    have h0 : tryCopias (c :: cs) = none := h _ (List.suffix_refl _)
    simp [subCopias, h0, ih (fun t ht => h t (ht.trans (List.suffix_cons c cs)))]

lemma hasCopiasMatch_eq_false (l : List Char)
    (h : ∀ t, t <:+ l → tryCopias t = none) : hasCopiasMatch l = false := by
  unfold hasCopiasMatch
  rw [List.any_eq_false]
  intro t ht
  rw [List.mem_tails] at ht
  simp [h t ht]

lemma tryCopias_none_within (b ds e : List Char) (hds : ds ≠ [])
    (hdig : ∀ c ∈ ds, c.isDigit = true)
    (hext : e = [] ∨ ∃ tl, e = '.' :: tl ∧ tl ≠ [] ∧ '.' ∉ tl ∧
      occursB copiasLit tl = false)
    (hA : occursB copiasLit (b ++ '(' :: ds) = false) :
    ∀ t, t <:+ ((b ++ '(' :: ds) ++ (copiasLit ++ ')' :: e)) → tryCopias t = none := by
  intro t ht
  rcases suffix_append_cases ht with htY | ⟨u, huA, hune, rfl⟩
  · rcases suffix_append_cases htY with htB | ⟨u, huC, hune, rfl⟩
    · rcases List.suffix_cons_iff.1 htB with rfl | hte
      · exact tryCopias_none_of_head_not_digit (by decide)
      · rcases hext with rfl | ⟨tl, rfl, _, _, htl3⟩
        · rw [List.suffix_nil.1 hte]
          exact tryCopias_nil
        · rcases List.suffix_cons_iff.1 hte with rfl | htt
          · exact tryCopias_none_of_head_not_digit (by decide)
          · cases htc : tryCopias t with
            | none => rfl
            | some g =>
              exfalso
              obtain ⟨ds', r, rfl, _⟩ := tryCopias_some_decomp htc
              obtain ⟨pre, hpre⟩ := htt
              have hocc : occursB copiasLit tl = true := by
                apply occursB_of_decomp copiasLit (pre ++ ds') r
                rw [← hpre, List.append_assoc]
              rw [htl3] at hocc
              exact Bool.false_ne_true hocc
    · have hu : u ∈ copiasLit.tails := (List.mem_tails u copiasLit).2 huC
      have htails : copiasLit.tails =
          [" COPIAS".data, "COPIAS".data, "OPIAS".data, "PIAS".data, "IAS".data,
            "AS".data, "S".data, []] := rfl
      rw [htails] at hu
      simp only [List.mem_cons, List.not_mem_nil, or_false] at hu
      rcases hu with rfl | rfl | rfl | rfl | rfl | rfl | rfl | rfl
      · exact tryCopias_none_of_head_not_digit (by decide)
      · exact tryCopias_none_of_head_not_digit (by decide)
      · exact tryCopias_none_of_head_not_digit (by decide)
      · exact tryCopias_none_of_head_not_digit (by decide)
      · exact tryCopias_none_of_head_not_digit (by decide)
      · exact tryCopias_none_of_head_not_digit (by decide)
      · exact tryCopias_none_of_head_not_digit (by decide)
      · exact absurd rfl hune
  · by_cases hall : ∀ c ∈ u, Char.isDigit c = true
    · have hTW : (u ++ (copiasLit ++ ')' :: e)).takeWhile Char.isDigit = u := by
        rw [takeWhile_append_of_all u _ hall]
        have hcl : copiasLit ++ ')' :: e = ' ' :: ("COPIAS".data ++ ')' :: e) := rfl
        rw [hcl, List.takeWhile_cons, if_neg (by decide), List.append_nil]
      have hDW : (u ++ (copiasLit ++ ')' :: e)).dropWhile Char.isDigit =
          copiasLit ++ ')' :: e := by
        rw [dropWhile_append_of_all u _ hall]
        have hcl : copiasLit ++ ')' :: e = ' ' :: ("COPIAS".data ++ ')' :: e) := rfl
        rw [hcl, List.dropWhile_cons, if_neg (by decide)]
      unfold tryCopias
      rw [hTW, hDW, if_neg hune,
        if_pos (List.take_left' (show copiasLit.length = 7 from rfl)),
        List.drop_left' (show copiasLit.length = 7 from rfl)]
      rfl
    · cases htc : tryCopias (u ++ (copiasLit ++ ')' :: e)) with
      | none => rfl
      | some g =>
        exfalso
        obtain ⟨hTW, hDW⟩ := takeWhile_append_of_break u (copiasLit ++ ')' :: e) hall
        unfold tryCopias at htc
        by_cases h1 : (u ++ (copiasLit ++ ')' :: e)).takeWhile Char.isDigit = []
        · rw [if_pos h1] at htc
          exact Option.noConfusion htc
        · rw [if_neg h1] at htc
          by_cases h2 : ((u ++ (copiasLit ++ ')' :: e)).dropWhile Char.isDigit).take 7 =
              copiasLit
          · rw [hDW] at h2
            have hwne : u.dropWhile Char.isDigit ≠ [] := by
              intro hnil
              apply hall
              intro c hc
              exact (List.dropWhile_eq_nil_iff).1 hnil c hc
            have hlen7 : copiasLit.length = 7 := rfl
            rcases Nat.lt_or_ge (u.dropWhile Char.isDigit).length 7 with hk | hk
            · rw [List.take_append_eq_append_take,
                List.take_of_length_le (Nat.le_of_lt hk),
                List.take_append_eq_append_take] at h2
              have hz : 7 - (u.dropWhile Char.isDigit).length - copiasLit.length = 0 := by
                rw [hlen7]; omega
              rw [hz, List.take_zero, List.append_nil] at h2
              have hd := congrArg (List.drop (u.dropWhile Char.isDigit).length) h2
              rw [List.drop_left] at hd
              have hk1 : 1 ≤ (u.dropWhile Char.isDigit).length := by
                have := List.length_pos.2 hwne
                omega
              obtain ⟨k, hkeq⟩ : ∃ n, n = (u.dropWhile Char.isDigit).length := ⟨_, rfl⟩
              rw [← hkeq] at hd hk hk1
              interval_cases k <;> exact absurd hd (by decide)
            · rw [List.take_append_of_le_length hk] at h2
              have hw7 : u.dropWhile Char.isDigit =
                  copiasLit ++ (u.dropWhile Char.isDigit).drop 7 := by
                rw [← h2]
                exact (List.take_append_drop 7 _).symm
              obtain ⟨pre, hpre⟩ := huA
              have hocc : occursB copiasLit (b ++ '(' :: ds) = true := by
                apply occursB_of_decomp copiasLit (pre ++ u.takeWhile Char.isDigit)
                  ((u.dropWhile Char.isDigit).drop 7)
                rw [← hpre]
                conv_lhs => rw [show u =
                  u.takeWhile Char.isDigit ++ u.dropWhile Char.isDigit from
                    (List.takeWhile_append_dropWhile (p := Char.isDigit) (l := u)).symm,
                  hw7]
                simp [List.append_assoc]
              rw [hA] at hocc
              exact Bool.false_ne_true hocc
          · rw [if_neg h2] at htc
            exact Option.noConfusion htc

/-- C8 counterexample: the rewrite of rename_files is not idempotent —
applying it twice to "9 COPIAS.3 COPIAS" gives a different result than
once — and the detection pattern can match a filename that already ends
in the parenthesized form "(3 COPIAS)" followed by the single (dot-free)
extension ".5 COPIAS", rewriting it again. -/
theorem claim_C8_counterexample :
    subCopias (subCopias "9 COPIAS.3 COPIAS".data) ≠
      subCopias "9 COPIAS.3 COPIAS".data ∧
    hasCopiasMatch "(3 COPIAS).5 COPIAS".data = true ∧
    subCopias "(3 COPIAS).5 COPIAS".data ≠ "(3 COPIAS).5 COPIAS".data := by
  refine ⟨by decide, by decide, by decide⟩

/-- C8 (amended): the second-pass normalizer never double-wraps a
filename of the form b ++ "(" ++ ds ++ " COPIAS)" ++ e — where ds is a
nonempty digit string and e is empty or a single dot-extension — provided
the text " COPIAS" occurs nowhere else in the name (neither in the part
before the suffix nor in the extension; the counterexample shows the
restriction is necessary): its detection pattern does not match, the file
is left unchanged, and applying the rewrite twice equals applying it
once on such names.  In general the rewrite is not idempotent. -/
theorem claim_C8_amended (b ds e : List Char) (hds : ds ≠ [])
    (hdig : ∀ c ∈ ds, c.isDigit = true)
    (hext : e = [] ∨ ∃ tl, e = '.' :: tl ∧ tl ≠ [] ∧ '.' ∉ tl ∧
      occursB copiasLit tl = false)
    (hA : occursB copiasLit (b ++ '(' :: ds) = false) :
    hasCopiasMatch ((b ++ '(' :: ds) ++ (copiasLit ++ ')' :: e)) = false ∧
    subCopias ((b ++ '(' :: ds) ++ (copiasLit ++ ')' :: e)) =
      (b ++ '(' :: ds) ++ (copiasLit ++ ')' :: e) ∧
    rename_files [(b ++ '(' :: ds) ++ (copiasLit ++ ')' :: e)] =
      [(b ++ '(' :: ds) ++ (copiasLit ++ ')' :: e)] ∧
    subCopias (subCopias ((b ++ '(' :: ds) ++ (copiasLit ++ ')' :: e))) =
      subCopias ((b ++ '(' :: ds) ++ (copiasLit ++ ')' :: e)) := by
  have hnone := tryCopias_none_within b ds e hds hdig hext hA
  have h1 := hasCopiasMatch_eq_false _ hnone
  have h2 := subCopias_eq_self _ hnone
  refine ⟨h1, h2, ?_, by rw [h2, h2]⟩
  unfold rename_files
  simp only [List.map_cons, List.map_nil]
  rw [if_neg (by simp only [h1]; exact Bool.false_ne_true)]

/-- Witness for C8 (amended) at the already-wrapped filename
"BT14-069 (2 COPIAS).pdf". -/
theorem claim_C8_witness :
    hasCopiasMatch (("BT14-069 ".data ++ '(' :: "2".data) ++
      (copiasLit ++ ')' :: ".pdf".data)) = false ∧
    subCopias (("BT14-069 ".data ++ '(' :: "2".data) ++
      (copiasLit ++ ')' :: ".pdf".data)) =
      ("BT14-069 ".data ++ '(' :: "2".data) ++ (copiasLit ++ ')' :: ".pdf".data) := by
  have h := claim_C8_amended "BT14-069 ".data "2".data ".pdf".data (by decide)
    (by decide) (Or.inr ⟨"pdf".data, rfl, by decide, by decide, by decide⟩) (by decide)
  exact ⟨h.1, h.2.1⟩

/-- Witness for C1 at a folder already containing "a.pdf". -/
theorem claim_C1_witness :
    get_unique_filename ["a.pdf".data] "a".data ".pdf".data ∉ ["a.pdf".data] :=
  (claim_C1 ["a.pdf".data] "a".data ".pdf".data).1

/-- Witness for C10: five units of extra fuel do not change the result on
a one-file folder. -/
theorem claim_C10_witness :
    guf_go ["a.pdf".data] "a".data ".pdf".data 0 (["a.pdf".data].length + 1 + 5) =
      get_unique_filename ["a.pdf".data] "a".data ".pdf".data :=
  (claim_C10 ["a.pdf".data] "a".data ".pdf".data 5).1
